import Mathlib

/-!
Verification of the jekyll-history server core (history.go): per-commit
build coordination, virtual-host allocation, repository-lock serialization,
startup index construction, error capture and formatting, and the
per-commit static content handler.  Strings are modelled as `List Char`;
machine integers as `Nat` with explicit reduction modulo `2 ^ 32` where Go
overflow semantics matter.
-/

namespace JekyllHistory

/-! ### Startup index construction (main, lines 128-143)

`strings.SplitN(line, " ", 2)` splits a line at the first space only; the
code then indexes `line[0]` and `line[1]`, which panics (the process
crashes before serving) when the line holds no space at all.  `none`
models that crash. -/

/-- Helper mirroring the search for the first separator in
`strings.SplitN(s, sep, 2)`: returns the text before the first `sep` and
the remainder after it, or `none` when `sep` does not occur. -/
def splitFirst (sep : Char) : List Char → Option (List Char × List Char)
  | [] => none
  | c :: rest =>
    if c = sep then some ([], rest)
    else
      match splitFirst sep rest with
      | none => none
      | some (a, b) => some (c :: a, b)

/-- Model of `strings.SplitN(s, " ", 2)` specialised to two pieces: one
element when the separator is absent, two otherwise. -/
def splitN2 (sep : Char) (s : List Char) : List (List Char) :=
  match splitFirst sep s with
  | none => [s]
  | some (a, b) => [a, b]

/-- Model of one iteration of the scanner loop in `main`:
`line := strings.SplitN(scanner.Text(), " ", 2); commit, title := line[0], line[1]`.
Indexing `line[1]` on a one-element slice panics, modelled as `none`. -/
def scanLine (s : List Char) : Option (List Char × List Char) :=
  match splitN2 ' ' s with
  | [a, b] => some (a, b)
  | _ => none

/-- Model of the whole scanner loop of `main` over the lines of the
`git log --oneline` output: the commit/title pairs in order, or `none`
when some line makes the process panic. -/
def startupScan : List (List Char) → Option (List (List Char × List Char))
  | [] => some []
  | l :: ls =>
    match scanLine l, startupScan ls with
    | some e, some es => some (e :: es)
    | _, _ => none

/-! ### Error capture and formatting (`stderrError.Error`, lines 367-385) -/

/-- Model of `bytes.Replace(e.stderr, nl, nltb, -1)`: every newline byte
is replaced by a newline followed by a tab. -/
def replNl : List Char → List Char
  | [] => []
  | c :: rest => if c = '\n' then '\n' :: '\t' :: replNl rest else c :: replNl rest

/-- Model of `bytes.TrimRight(stderr, "\t")`: drop trailing tab
characters (and only tab characters). -/
def trimRightTab (s : List Char) : List Char :=
  (s.reverse.dropWhile fun c => c = '\t').reverse

/-- Model of `(*stderrError).Error()`: the short description alone when no
stderr was captured, otherwise `fmt.Sprintf("%s:\n\t%s", e.err, stderr)`
applied to the replaced-and-trimmed stderr bytes.  The bytes held in the
buffer have already passed through the `vtclean` writer, so terminal
control sequences are gone before this formatting runs. -/
def stderrErrorMsg (errDesc stderr : List Char) : List Char :=
  if stderr = [] then errDesc
  else errDesc ++ (':' :: '\n' :: '\t' :: trimRightTab (replNl stderr))

/-- Model of the error record carried by `*stderrError`: the wrapped
error's short description and the captured (cleaned) stderr bytes. -/
structure BuildErr where
  errDesc : List Char
  stderr : List Char
deriving DecidableEq

/-- Model of the operator log line in `commitHandler.ServeHTTP`
(lines 294-298): the `*stderrError` is unwrapped to its short inner error
before `log.Printf("Error serving %s: %s", commit, err)`. -/
def logServeLine (commit errDesc : List Char) : List Char :=
  ("Error serving ".data) ++ commit ++ (": ".data) ++ errDesc

/-! ### The build sequence (`commitHandler.buildSite`, lines 233-267)

The checkout subprocess and the generator subprocess each either succeed
or exit non-zero; the bytes they write to stderr accumulate into the one
`bytes.Buffer` (through the cleaning writer), which `buildSite` resets
after a successful checkout. -/

/-- Result of running one external subprocess: whether it exited zero,
the short error description for a non-zero exit, and the (cleaned) bytes
it wrote to the captured stderr stream. -/
structure ProcResult where
  ok : Bool
  errDesc : List Char
  out : List Char
deriving DecidableEq

/-- Model of `commitHandler.buildSite`: run `git checkout` with the
stderr buffer collecting its output; on non-zero exit return a
`stderrError` holding the buffer's bytes.  Otherwise `stderr.Reset()`
empties the buffer, the generator runs collecting its output, and a
non-zero exit returns a `stderrError` holding the buffer's bytes (which
now start from empty). -/
def buildSiteRun (checkout gen1 : ProcResult) : Option BuildErr :=
  let buf : List Char := [] ++ checkout.out
  if checkout.ok = false then some ⟨checkout.errDesc, buf⟩
  else
    let buf2 : List Char := [] ++ gen1.out
    if gen1.ok = false then some ⟨gen1.errDesc, buf2⟩
    else none

/-! ### Per-commit content handler (`siteHandler`, lines 350-365)

`siteHandler` reads the directory's `/404.html` once (abstracted here as
an `Option (List Char)`: `some content` when the open and read both
succeed) and wraps the file server in a `StatusCodeSwitch` that replaces
only not-found responses. -/

/-- Response of the per-commit content handler: a pass-through of the
underlying file server, the custom not-found page, or the generic
not-found error. -/
inductive SiteResp
  | passthrough (status : Nat) (body : List Char)
  | customNotFound (body : List Char)
  | genericNotFound
deriving DecidableEq

/-- Status code carried by each `SiteResp`; both not-found forms answer
with the not-found status. -/
def siteStatus : SiteResp → Nat
  | SiteResp.passthrough s _ => s
  | SiteResp.customNotFound _ => 404
  | SiteResp.genericNotFound => 404

/-- Model of `siteHandler dir` applied to the underlying file server's
response for a request: the `StatusCodeSwitch` diverts exactly status 404
to the not-found handler, which serves the custom page bytes when
`/404.html` was readable and the generic error otherwise. -/
def siteHandler (custom404 : Option (List Char)) (status : Nat) (body : List Char) :
    SiteResp :=
  if status = 404 then
    match custom404 with
    | some content => SiteResp.customNotFound content
    | none => SiteResp.genericNotFound
  else SiteResp.passthrough status body

/-! ### Virtual-host allocation (`buildCommitOnce.Do`, lines 325-344)

The handler hashes the commit id with FNV-32a, writes the 32-bit sum into
a 4-byte IPv4 address, overwrites the first byte with 127, and registers
that loopback address with the host switch; while the address is already
registered it writes the single byte `1` into the hash state and retries.
An address is the `Nat` value of its four bytes, big-endian. -/

/-- The 32-bit FNV prime (`hash/fnv`). -/
def fnvPrime : Nat := 16777619

/-- The 32-bit FNV offset basis (`hash/fnv`). -/
def fnvOffsetBasis : Nat := 2166136261

/-- One byte of FNV-32a: XOR the byte into the state, multiply by the
prime, reduce modulo `2 ^ 32` (Go `uint32` arithmetic). -/
def fnvStep (s b : Nat) : Nat := ((s ^^^ b) * fnvPrime) % 4294967296

/-- FNV-32a of a byte sequence, as computed by `fnv.New32a` after
`io.WriteString(h, commit)`. -/
def fnvHash (bytes : List Nat) : Nat := bytes.foldl fnvStep fnvOffsetBasis

/-- The bytes written by `io.WriteString` for a commit id (ASCII short
hashes, one byte per character). -/
def strBytes (c : List Char) : List Nat := c.map Char.toNat

/-- Model of `h.Sum(ip[:0]); ip[0] = 127`: the hash state's low three
bytes (big-endian `Sum` with the top byte overwritten by 127), as a
single `Nat` address value. -/
def addrOfState (s : Nat) : Nat := 127 * 16777216 + s % 16777216

/-- Model of the collision-probing loop in `buildCommitOnce.Do`: starting
from hash state `s`, take the current address; if it is already
registered, write the fixed byte `1` into the hash state
(`h.Write(one[:])`) and retry; otherwise register it.  The loop in the
source is unbounded; `fuel` bounds the recursion, with `none` meaning the
loop did not terminate within `fuel` probes. -/
def allocLoop : Nat → Nat → List Nat → Option Nat
  | 0, _, _ => none
  | fuel + 1, s, regs =>
    let a := addrOfState s
    if a ∈ regs then allocLoop fuel (fnvStep s 1) regs else some a

/-- Allocation of a host address for a commit id against the currently
registered addresses. -/
def allocateHost (fuel : Nat) (commit : List Char) (regs : List Nat) : Option Nat :=
  allocLoop fuel (fnvHash (strBytes commit)) regs

/-- Allocation for a sequence of commits, each successful allocation
being registered (`ch.hosts.Add`) before the next commit allocates. -/
def allocateAll (fuel : Nat) : List (List Char) → List Nat → Option (List Nat)
  | [], _ => some []
  | c :: cs, regs =>
    match allocateHost fuel c regs with
    | none => none
    | some a =>
      match allocateAll fuel cs (a :: regs) with
      | none => none
      | some rest => some (a :: rest)

/-! ### Build coordination and request serving
(`commitHandler.ServeHTTP` lines 269-308, `buildCommitOnce.Do` lines 311-348)

The handler state: the immutable commit index, the `sync.Map` of resolved
per-commit outcomes, and the ordered list of commits whose build sequence
actually ran.  The checkout-plus-generate-plus-allocate sequence is
abstracted as a function `bs` of the commit and of the global invocation
count, so that two hypothetical invocations could observe different
outcomes; single-flight must make every caller see the one stored
outcome. -/

/-- Association-list lookup used to model map access. -/
def lookupRec {α : Type} : List (List Char × α) → List Char → Option α
  | [], _ => none
  | (k, v) :: rest, c => if k = c then some v else lookupRec rest c

/-- Outcome of a commit's build coordination: the allocated host string
on success, the captured build error on failure. -/
inductive Outcome
  | ok (host : List Char)
  | fail (e : BuildErr)
deriving DecidableEq

/-- State of the `commitHandler`: the commit index (`ch.commits`), the
resolved entries of the build map (`ch.build`), and the commits whose
build sequence has executed, in execution order. -/
structure ServerState where
  commits : List (List Char × List Char)
  records : List (List Char × Outcome)
  invocations : List (List Char)
deriving DecidableEq

/-- Model of `buildCommitOnce.Do` reached through
`ch.build.Load / LoadOrStore`: a commit with a resolved record replays
the stored outcome without running anything; otherwise the build sequence
runs exactly here, and its outcome is stored for all later callers. -/
def ensure (bs : Nat → List Char → Outcome) (st : ServerState) (c : List Char) :
    ServerState × Outcome :=
  match lookupRec st.records c with
  | some o => (st, o)
  | none =>
    let o := bs st.invocations.length c
    ({ st with
        records := st.records ++ [(c, o)]
        invocations := st.invocations ++ [c] }, o)

/-- An inbound `GET /commit/{commit}/*` request: the commit route
parameter, the trailing wildcard path, and the raw query string. -/
structure Request where
  commit : List Char
  rest : List Char
  rawQuery : List Char
deriving DecidableEq

/-- Response produced by `commitHandler.ServeHTTP`: the shared not-found
handler, the rendered build-error page, or the see-other redirect. -/
inductive HResponse
  | notFound
  | errorPage (commit msg : List Char)
  | seeOther (location : List Char)
deriving DecidableEq

/-- HTTP status of each response form: `http.StatusNotFound`,
`http.StatusInternalServerError` (written before the error template), and
`http.StatusSeeOther` (`http.Redirect`). -/
def statusOf : HResponse → Nat
  | HResponse.notFound => 404
  | HResponse.errorPage _ _ => 500
  | HResponse.seeOther _ => 303

/-- Decimal rendering of the port for `strconv.Itoa`. -/
def natDigits (n : Nat) : List Char := (toString n).data

/-- Model of `net.JoinHostPort`: hosts containing a colon are bracketed,
others joined with a colon. -/
def joinHostPort (host : List Char) (port : Nat) : List Char :=
  if ':' ∈ host then '[' :: host ++ (']' :: ':' :: natDigits port)
  else host ++ (':' :: natDigits port)

/-- Model of `(&url.URL{...}).String()` as built in `ServeHTTP`
(lines 302-308): scheme and host, then the path (with a slash inserted
before a rootless non-empty path, as `url.URL.String` does when a host is
present), then `?` and the raw query when the query is non-empty. -/
def urlString (host : List Char) (port : Nat) (path query : List Char) : List Char :=
  ("http://".data) ++ joinHostPort host port ++
    (match path with
     | [] => []
     | c :: _ => if c = '/' then path else '/' :: path) ++
    (if query = [] then [] else '?' :: query)

/-- Rendering of a resolved outcome into the response and optional log
line, exactly as `ServeHTTP` does after `Do` returns: an error renders
the 500 page with the full diagnostic and logs the unwrapped short
description; a success issues the see-other redirect. -/
def renderOutcome (port : Nat) (r : Request) :
    Outcome → HResponse × Option (List Char)
  | Outcome.fail e =>
    (HResponse.errorPage r.commit (stderrErrorMsg e.errDesc e.stderr),
      some (logServeLine r.commit e.errDesc))
  | Outcome.ok host =>
    (HResponse.seeOther (urlString host port r.rest r.rawQuery), none)

/-- Model of `commitHandler.ServeHTTP`: unknown commits answer not-found
before the build map is touched; known commits go through `ensure` and
render its outcome. -/
def serveHTTP (bs : Nat → List Char → Outcome) (port : Nat) (st : ServerState)
    (r : Request) : ServerState × HResponse × Option (List Char) :=
  match lookupRec st.commits r.commit with
  | none => (st, HResponse.notFound, none)
  | some _ =>
    let (st1, o) := ensure bs st r.commit
    (st1, renderOutcome port r o)

/-- A run of the server over a sequence of requests, collecting each
request's response and log line. -/
def runRequests (bs : Nat → List Char → Outcome) (port : Nat) :
    ServerState → List Request → ServerState × List (Request × HResponse × Option (List Char))
  | st, [] => (st, [])
  | st, r :: rs =>
    let (st1, resp) := serveHTTP bs port st r
    let (st2, trace) := runRequests bs port st1 rs
    (st2, (r, resp) :: trace)

/-! ### Repository lock serialization (`ch.repoLock`, lines 238-239)

`buildSite` acquires the one `sync.Mutex` before `git checkout` and holds
it (released by `defer`) across the generator run.  Concurrent executions
are modelled as interleaved traces of atomic events; a trace is valid
when it respects the mutex semantics and each goroutine follows
`buildSite`'s program order: lock, checkout, then either an error return
(unlock) or the generator step followed by return (unlock). -/

/-- Atomic actions of one `buildSite` execution. -/
inductive BuildAct
  | lock
  | checkout
  | gen
  | unlock
deriving DecidableEq

/-- One event of an interleaved trace: which goroutine (identified by the
commit it builds, numbered) performs which action. -/
structure BuildEv where
  tid : Nat
  act : BuildAct
deriving DecidableEq

/-- Mutex semantics of `sync.Mutex`: folding a trace over the owner
state.  `lock` requires the mutex free; `unlock` requires the running
goroutine to own it; other actions leave ownership unchanged.  `none` as
the overall result marks an impossible (invalid) trace. -/
def mutexRun : Option Nat → List BuildEv → Option (Option Nat)
  | o, [] => some o
  | o, e :: tr =>
    match e.act, o with
    | BuildAct.lock, none => mutexRun (some e.tid) tr
    | BuildAct.lock, some _ => none
    | BuildAct.unlock, some t => if t = e.tid then mutexRun none tr else none
    | BuildAct.unlock, none => none
    | _, _ => mutexRun o tr

/-- The action sequences a single `buildSite` call can have produced so
far: prefixes of lock-checkout-generate-unlock (checkout succeeded) and
of lock-checkout-unlock (checkout failed and the deferred unlock ran). -/
def progSeqs : List (List BuildAct) :=
  [[], [BuildAct.lock], [BuildAct.lock, BuildAct.checkout],
   [BuildAct.lock, BuildAct.checkout, BuildAct.gen],
   [BuildAct.lock, BuildAct.checkout, BuildAct.gen, BuildAct.unlock],
   [BuildAct.lock, BuildAct.checkout, BuildAct.unlock]]

/-- Program-order check for one goroutine's projected action list. -/
def progOk (l : List BuildAct) : Bool := decide (l ∈ progSeqs)

/-- Projection of a trace onto one goroutine's actions. -/
def threadActs (t : Nat) (tr : List BuildEv) : List BuildAct :=
  (tr.filter fun e => e.tid == t).map BuildEv.act

/-- Trace validity: the mutex semantics never fail and every goroutine
appearing in the trace follows `buildSite`'s program order. -/
def validTrace (tr : List BuildEv) : Bool :=
  (mutexRun none tr).isSome &&
    (tr.map BuildEv.tid).all fun t => progOk (threadActs t tr)

/-- The steps of the build sequence proper (those the serializer must
keep exclusive): the checkout and the generator run. -/
def isBuildStep : BuildAct → Bool
  | BuildAct.checkout => true
  | BuildAct.gen => true
  | _ => false

/-! ### Helper lemmas -/

/-- Splitting a line made of a separator-free head, the separator, and an
arbitrary tail recovers exactly that head and tail. -/
theorem splitFirst_append_sep (sep : Char) (id title : List Char) (h : sep ∉ id) :
    splitFirst sep (id ++ sep :: title) = some (id, title) := by
  induction id with
  | nil => simp [splitFirst]
  | cons c cs ih =>
    have hc : ¬c = sep := fun hc => h (hc ▸ List.mem_cons_self c cs)
    have hcs : sep ∉ cs := fun hm => h (List.mem_cons_of_mem _ hm)
    simp [splitFirst, hc, ih hcs]

/-- A line without the separator yields no split. -/
theorem splitFirst_none (sep : Char) (l : List Char) (h : sep ∉ l) :
    splitFirst sep l = none := by
  induction l with
  | nil => rfl
  | cons c cs ih =>
    have hc : ¬c = sep := fun hc => h (hc ▸ List.mem_cons_self c cs)
    have hcs : sep ∉ cs := fun hm => h (List.mem_cons_of_mem _ hm)
    simp [splitFirst, hc, ih hcs]

/-- A listing that contains a space-free line makes the scanner loop
panic wherever that line sits. -/
theorem startupScan_malformed (ls1 ls2 : List (List Char)) (l : List Char)
    (h : ' ' ∉ l) : startupScan (ls1 ++ l :: ls2) = none := by
  induction ls1 with
  | nil =>
    have : scanLine l = none := by
      simp [scanLine, splitN2, splitFirst_none ' ' l h]
    simp [startupScan, this]
  | cons l1 ls ih =>
    have hu : startupScan (l1 :: (ls ++ l :: ls2)) =
        match scanLine l1, startupScan (ls ++ l :: ls2) with
        | some e, some es => some (e :: es)
        | _, _ => none := rfl
    rw [List.cons_append, hu, ih]
    cases scanLine l1 <;> rfl

/-- Every newline in the captured bytes is re-indented by the
replacement, also in the middle of the buffer. -/
theorem replNl_append_newline (a b : List Char) :
    replNl (a ++ '\n' :: b) = replNl a ++ '\n' :: '\t' :: replNl b := by
  induction a with
  | nil => simp [replNl]
  | cons c cs ih => by_cases hc : c = '\n' <;> simp [replNl, hc, ih]

/-- Newline-free input passes through the replacement unchanged. -/
theorem replNl_id (s : List Char) (h : '\n' ∉ s) : replNl s = s := by
  induction s with
  | nil => rfl
  | cons c cs ih =>
    have hc : ¬c = '\n' := fun hc => h (hc ▸ List.mem_cons_self c cs)
    have hcs : '\n' ∉ cs := fun hm => h (List.mem_cons_of_mem _ hm)
    simp [replNl, hc, ih hcs]

/-- The head surviving a `dropWhile` fails the predicate. -/
theorem head?_dropWhile {α : Type} (p : α → Bool) (l : List α) (c : α)
    (h : (l.dropWhile p).head? = some c) : p c = false := by
  induction l with
  | nil => simp [List.dropWhile] at h
  | cons a l ih =>
    by_cases ha : p a
    · exact ih (by simpa [List.dropWhile, ha] using h)
    · simp [List.dropWhile, ha] at h
      simpa [← h] using Bool.of_not_eq_true ha

/-- The trimmed buffer never ends in a tab. -/
theorem trimRightTab_getLast (s : List Char) :
    (trimRightTab s).getLast? ≠ some '\t' := by
  intro h
  unfold trimRightTab at h
  rw [List.getLast?_reverse] at h
  have := head?_dropWhile (fun c => c = '\t') s.reverse '\t' h
  simp at this

/-- Only tab characters are removed by the trim: the input is the
trimmed output followed by some run of tabs. -/
theorem trimRightTab_decomp (s : List Char) :
    ∃ n, s = trimRightTab s ++ List.replicate n '\t' := by
  refine ⟨(s.reverse.takeWhile fun c => c = '\t').length, ?_⟩
  have hrep : (s.reverse.takeWhile fun c => c = '\t')
      = List.replicate (s.reverse.takeWhile fun c => c = '\t').length '\t' := by
    apply List.eq_replicate_length.mpr
    intro c hc
    simpa using List.mem_takeWhile_imp hc
  calc s = s.reverse.reverse := s.reverse_reverse.symm
    _ = ((s.reverse.takeWhile fun c => c = '\t')
          ++ (s.reverse.dropWhile fun c => c = '\t')).reverse := by
        rw [List.takeWhile_append_dropWhile]
    _ = (s.reverse.dropWhile fun c => c = '\t').reverse
          ++ (s.reverse.takeWhile fun c => c = '\t').reverse := by
        rw [List.reverse_append]
    _ = trimRightTab s
          ++ List.replicate (s.reverse.takeWhile fun c => c = '\t').length '\t' := by
        rw [trimRightTab, hrep, List.reverse_replicate]
        simp

/-- A buffer not ending in a tab is untouched by the trim. -/
theorem trimRightTab_id (s : List Char) (h : s.getLast? ≠ some '\t') :
    trimRightTab s = s := by
  have h2 : s.reverse.head? ≠ some '\t' := by rwa [List.head?_reverse]
  have hdw : s.reverse.dropWhile (fun c => c = '\t') = s.reverse := by
    cases hs : s.reverse with
    | nil => rfl
    | cons c cs =>
      have hc : ¬c = '\t' := by
        intro hc
        exact h2 (by rw [hs, hc]; rfl)
      simp [List.dropWhile, hc]
  rw [trimRightTab, hdw, List.reverse_reverse]

/-- Lookup distributes over appended association lists, preferring the
left entries. -/
theorem lookupRec_append {α : Type} (l1 l2 : List (List Char × α)) (c : List Char) :
    lookupRec (l1 ++ l2) c =
      match lookupRec l1 c with
      | some v => some v
      | none => lookupRec l2 c := by
  induction l1 with
  | nil => rfl
  | cons kv rest ih =>
    cases kv with
    | mk k v => by_cases hk : k = c <;> simp [lookupRec, hk, ih]

/-! ### Claim C4 -/

/-- C4 (amended): startup index construction splits each line at the
first separator only, so titles may contain spaces; a malformed line
(one without any separator) makes the scanner loop panic, so the process
cannot start; and a listing that produces no entries scans successfully
to an empty index (startup is not stopped, see the counterexample). -/
theorem commitIndex_construction (id title l : List Char)
    (ls1 ls2 : List (List Char))
    (hid : ' ' ∉ id) (hl : ' ' ∉ l) :
    scanLine (id ++ ' ' :: title) = some (id, title) ∧
    startupScan (ls1 ++ l :: ls2) = none ∧
    startupScan [] = some [] := by
  refine ⟨?_, startupScan_malformed ls1 ls2 l hl, rfl⟩
  simp [scanLine, splitN2, splitFirst_append_sep ' ' id title hid]

/-- C4 witness: the spec scenario's first line parses into the id and
the spaced title; a one-word line panics; the empty listing scans to an
empty index. -/
theorem commitIndex_construction_witness :
    scanLine (("abc123".data) ++ ' ' :: ("Initial commit".data))
      = some ("abc123".data, "Initial commit".data) ∧
    startupScan ([] ++ ("abc123".data) :: []) = none ∧
    startupScan [] = some [] :=
  commitIndex_construction ("abc123".data) ("Initial commit".data)
    ("abc123".data) [] [] (by decide) (by decide)

/-- C4 counterexample: a listing that produces no entries does not make
the process fail fast; the scanner loop succeeds with an empty index and
startup proceeds, contradicting the claim's empty-listing half. -/
theorem commitIndex_empty_listing_counterexample :
    startupScan [] = some [] ∧ (startupScan []).isSome = true := ⟨rfl, rfl⟩

/-! ### Claim C7 -/

/-- C7 (amended): a failed subprocess's diagnostic is the short error
description joined (by a colon, newline and tab) with the captured
stderr bytes, in which every newline has been re-indented with a tab and
trailing TAB characters (not all trailing whitespace) have been trimmed;
the operator log line carries only the short description, independent of
the captured stderr. -/
theorem stderrError_format_spec (errDesc stderr a b s : List Char)
    (e : BuildErr) (port : Nat) (r : Request) (h : stderr ≠ []) :
    stderrErrorMsg errDesc stderr
      = errDesc ++ (':' :: '\n' :: '\t' :: trimRightTab (replNl stderr)) ∧
    replNl (a ++ '\n' :: b) = replNl a ++ '\n' :: '\t' :: replNl b ∧
    (trimRightTab s).getLast? ≠ some '\t' ∧
    (∃ n, s = trimRightTab s ++ List.replicate n '\t') ∧
    (renderOutcome port r (Outcome.fail e)).2
      = some (logServeLine r.commit e.errDesc) :=
  ⟨by simp [stderrErrorMsg, h], replNl_append_newline a b,
    trimRightTab_getLast s, trimRightTab_decomp s, rfl⟩

/-- C7 witness: the format theorem applied to the spec scenario's
generator failure, a one-newline middle, a tab-ended buffer, and a
concrete request. -/
theorem stderrError_format_spec_witness :
    stderrErrorMsg ("exit status 1".data) ("Error: missing layout".data)
      = ("exit status 1".data)
        ++ (':' :: '\n' :: '\t'
            :: trimRightTab (replNl ("Error: missing layout".data))) ∧
    replNl (("x".data) ++ '\n' :: ("y".data))
      = replNl ("x".data) ++ '\n' :: '\t' :: replNl ("y".data) ∧
    (trimRightTab ("z\t".data)).getLast? ≠ some '\t' ∧
    (∃ n, ("z\t".data) = trimRightTab ("z\t".data) ++ List.replicate n '\t') ∧
    (renderOutcome 8080 ⟨"abc123".data, [], []⟩
        (Outcome.fail ⟨"exit status 1".data, "boom".data⟩)).2
      = some (logServeLine ("abc123".data) ("exit status 1".data)) :=
  stderrError_format_spec ("exit status 1".data) ("Error: missing layout".data)
    ("x".data) ("y".data) ("z\t".data)
    ⟨"exit status 1".data, "boom".data⟩ 8080 ⟨"abc123".data, [], []⟩ (by decide)

/-- C7 counterexample: when the captured stderr ends in a space and a
newline, the diagnostic keeps that trailing whitespace; only trailing
tab characters are trimmed, so the claim that trailing whitespace is
trimmed is false at this input. -/
theorem stderrError_trailing_whitespace_counterexample :
    stderrErrorMsg ("exit status 1".data) ("oops \n".data)
      = ("exit status 1:\n\toops \n".data) ∧
    ("exit status 1:\n\toops \n".data).getLast? = some '\n' ∧
    ('\n').isWhitespace = true := by
  refine ⟨by decide, by decide, by decide⟩

/-! ### Claim C9 -/

/-- C9: the per-commit content handler serves the directory's custom
`/404.html` bytes under the not-found status in place of the generic
not-found page when the custom page exists, a generic not-found response
otherwise, and passes every status other than not-found through
unmodified from the underlying file serving. -/
theorem siteHandler_spec (content body : List Char) (status : Nat)
    (custom : Option (List Char)) (h : status ≠ 404) :
    siteHandler (some content) 404 body = SiteResp.customNotFound content ∧
    siteStatus (siteHandler (some content) 404 body) = 404 ∧
    siteHandler none 404 body = SiteResp.genericNotFound ∧
    siteStatus (siteHandler none 404 body) = 404 ∧
    siteHandler custom status body = SiteResp.passthrough status body ∧
    siteStatus (siteHandler custom status body) = status := by
  refine ⟨rfl, rfl, rfl, rfl, ?_, ?_⟩ <;> simp [siteHandler, siteStatus, h]

/-- C9 witness: the handler with a custom page on a 404 and on a 200
response body. -/
theorem siteHandler_spec_witness :
    siteHandler (some ("custom".data)) 404 ("b".data)
      = SiteResp.customNotFound ("custom".data) ∧
    siteStatus (siteHandler (some ("custom".data)) 404 ("b".data)) = 404 ∧
    siteHandler none 404 ("b".data) = SiteResp.genericNotFound ∧
    siteStatus (siteHandler none 404 ("b".data)) = 404 ∧
    siteHandler (some ("custom".data)) 200 ("b".data)
      = SiteResp.passthrough 200 ("b".data) ∧
    siteStatus (siteHandler (some ("custom".data)) 200 ("b".data)) = 200 :=
  siteHandler_spec ("custom".data) ("b".data) 200 (some ("custom".data))
    (by decide)

/-! ### Claim C10 -/

/-- C10: the stderr buffer is reset after a successful checkout, so a
generator failure's diagnostic carries exactly the generator's own
stderr bytes; it is independent of whatever the checkout step wrote to
the captured stream. -/
theorem buildSite_reset_spec (checkout gen1 : ProcResult)
    (hc : checkout.ok = true) (hg : gen1.ok = false) :
    buildSiteRun checkout gen1 = some ⟨gen1.errDesc, gen1.out⟩ ∧
    ∀ altOut : List Char,
      buildSiteRun { checkout with out := altOut } gen1
        = buildSiteRun checkout gen1 := by
  constructor
  · simp [buildSiteRun, hc, hg]
  · intro alt
    simp [buildSiteRun, hc, hg]

/-- C10 witness: a noisy successful checkout followed by the spec
scenario's failing generator run. -/
theorem buildSite_reset_spec_witness :
    buildSiteRun ⟨true, [], "checkout noise".data⟩
        ⟨false, "exit status 1".data, "Error: missing layout".data⟩
      = some ⟨"exit status 1".data, "Error: missing layout".data⟩ ∧
    ∀ altOut : List Char,
      buildSiteRun ⟨true, [], altOut⟩
          ⟨false, "exit status 1".data, "Error: missing layout".data⟩
        = buildSiteRun ⟨true, [], "checkout noise".data⟩
            ⟨false, "exit status 1".data, "Error: missing layout".data⟩ :=
  buildSite_reset_spec ⟨true, [], "checkout noise".data⟩
    ⟨false, "exit status 1".data, "Error: missing layout".data⟩ rfl rfl

/-! ### Claim C8 -/

/-- C8: a request naming a commit absent from the index is answered
not-found with the handler state completely untouched — no build record
is created and no invocation happens — and the result does not depend on
the build function at all, so the working tree cannot be touched. -/
theorem unknownCommit_notFound (bs bs2 : Nat → List Char → Outcome)
    (port : Nat) (st : ServerState) (r : Request)
    (h : lookupRec st.commits r.commit = none) :
    serveHTTP bs port st r = (st, HResponse.notFound, none) ∧
    statusOf (serveHTTP bs port st r).2.1 = 404 ∧
    serveHTTP bs port st r = serveHTTP bs2 port st r := by
  refine ⟨?_, ?_, ?_⟩ <;> simp [serveHTTP, h, statusOf]

/-- C8 witness: the spec scenario's request for `zzz999` against an
index holding only `abc123`. -/
theorem unknownCommit_notFound_witness :
    serveHTTP (fun _ _ => Outcome.ok ("127.0.0.1".data)) 8080
        ⟨[("abc123".data, "Initial commit".data)], [], []⟩
        ⟨"zzz999".data, [], []⟩
      = (⟨[("abc123".data, "Initial commit".data)], [], []⟩,
          HResponse.notFound, none) ∧
    statusOf (serveHTTP (fun _ _ => Outcome.ok ("127.0.0.1".data)) 8080
        ⟨[("abc123".data, "Initial commit".data)], [], []⟩
        ⟨"zzz999".data, [], []⟩).2.1 = 404 ∧
    serveHTTP (fun _ _ => Outcome.ok ("127.0.0.1".data)) 8080
        ⟨[("abc123".data, "Initial commit".data)], [], []⟩
        ⟨"zzz999".data, [], []⟩
      = serveHTTP (fun _ _ => Outcome.fail ⟨"exit status 1".data, [] ⟩) 8080
          ⟨[("abc123".data, "Initial commit".data)], [], []⟩
          ⟨"zzz999".data, [], []⟩ :=
  unknownCommit_notFound (fun _ _ => Outcome.ok ("127.0.0.1".data))
    (fun _ _ => Outcome.fail ⟨"exit status 1".data, []⟩) 8080
    ⟨[("abc123".data, "Initial commit".data)], [], []⟩
    ⟨"zzz999".data, [], []⟩ (by decide)

/-! ### Claim C5 -/

/-- C5: once a commit's record caches a failed outcome, any further
request for it replays the identical 500 error page rendered from the
cached diagnostic and logs only the short description, while the state
is unchanged — so neither the checkout nor the generator can run again —
and when the captured stderr is newline-free and does not end in a tab
the response body contains the captured stderr text verbatim. -/
theorem failedBuild_cached_replay (bs : Nat → List Char → Outcome)
    (port : Nat) (st : ServerState) (c rest q title : List Char) (e : BuildErr)
    (hk : lookupRec st.commits c = some title)
    (hr : lookupRec st.records c = some (Outcome.fail e)) :
    serveHTTP bs port st ⟨c, rest, q⟩ =
      (st, HResponse.errorPage c (stderrErrorMsg e.errDesc e.stderr),
        some (logServeLine c e.errDesc)) ∧
    statusOf (HResponse.errorPage c (stderrErrorMsg e.errDesc e.stderr)) = 500 ∧
    ('\n' ∉ e.stderr → e.stderr.getLast? ≠ some '\t' → e.stderr ≠ [] →
      stderrErrorMsg e.errDesc e.stderr
        = (e.errDesc ++ [':', '\n', '\t']) ++ e.stderr) := by
  refine ⟨?_, rfl, ?_⟩
  · simp [serveHTTP, hk, ensure, hr, renderOutcome]
  · intro h1 h2 h3
    simp [stderrErrorMsg, h3, replNl_id _ h1, trimRightTab_id _ h2]

/-- C5 witness: the spec scenario, with the `abc123` record already
holding the generator failure whose stderr is
`Error: missing layout`. -/
theorem failedBuild_cached_replay_witness :
    serveHTTP (fun _ _ => Outcome.ok ("127.0.0.1".data)) 8080
        ⟨[("abc123".data, "Initial commit".data)],
          [("abc123".data,
            Outcome.fail ⟨"exit status 1".data, "Error: missing layout".data⟩)],
          ["abc123".data]⟩
        ⟨"abc123".data, [], []⟩
      = (⟨[("abc123".data, "Initial commit".data)],
          [("abc123".data,
            Outcome.fail ⟨"exit status 1".data, "Error: missing layout".data⟩)],
          ["abc123".data]⟩,
        HResponse.errorPage ("abc123".data)
          (stderrErrorMsg ("exit status 1".data) ("Error: missing layout".data)),
        some (logServeLine ("abc123".data) ("exit status 1".data))) ∧
    statusOf (HResponse.errorPage ("abc123".data)
        (stderrErrorMsg ("exit status 1".data) ("Error: missing layout".data)))
      = 500 ∧
    ('\n' ∉ ("Error: missing layout".data) →
      ("Error: missing layout".data).getLast? ≠ some '\t' →
      ("Error: missing layout".data) ≠ [] →
      stderrErrorMsg ("exit status 1".data) ("Error: missing layout".data)
        = (("exit status 1".data) ++ [':', '\n', '\t'])
          ++ ("Error: missing layout".data)) :=
  failedBuild_cached_replay (fun _ _ => Outcome.ok ("127.0.0.1".data)) 8080
    ⟨[("abc123".data, "Initial commit".data)],
      [("abc123".data,
        Outcome.fail ⟨"exit status 1".data, "Error: missing layout".data⟩)],
      ["abc123".data]⟩
    ("abc123".data) [] [] ("Initial commit".data)
    ⟨"exit status 1".data, "Error: missing layout".data⟩
    (by decide) (by decide)

/-! ### Claim C6 -/

/-- C6: a request for a known commit whose outcome is success is
answered with a see-other (303) redirect whose target joins the
allocated per-commit host with the listening port, whose path is the
trailing wildcard path, and whose query string is the request's raw
query unchanged. -/
theorem successRedirect_spec (bs : Nat → List Char → Outcome)
    (port : Nat) (st : ServerState) (c rest q title host : List Char)
    (hk : lookupRec st.commits c = some title)
    (hr : lookupRec st.records c = some (Outcome.ok host))
    (hhost : ':' ∉ host) (hrest : rest.head? ≠ some '/') :
    serveHTTP bs port st ⟨c, rest, q⟩ =
      (st, HResponse.seeOther (urlString host port rest q), none) ∧
    statusOf (HResponse.seeOther (urlString host port rest q)) = 303 ∧
    urlString host port rest q =
      ("http://".data) ++ host ++ (':' :: natDigits port)
        ++ (if rest = [] then [] else '/' :: rest)
        ++ (if q = [] then [] else '?' :: q) := by
  refine ⟨?_, rfl, ?_⟩
  · simp [serveHTTP, hk, ensure, hr, renderOutcome]
  · rw [urlString.eq_def, joinHostPort, if_neg hhost]
    cases rest with
    | nil => simp
    | cons c0 r0 =>
      have hc0 : ¬c0 = '/' := by
        intro hc
        exact hrest (by simp [hc])
      simp [hc0]

/-- C6 witness: redirecting `abc123` with trailing path `assets/x.css`
and query `v=2` through port 8080 to the cached host `127.43.7.9`. -/
theorem successRedirect_spec_witness :
    serveHTTP (fun _ _ => Outcome.ok ("127.0.0.1".data)) 8080
        ⟨[("abc123".data, "Initial commit".data)],
          [("abc123".data, Outcome.ok ("127.43.7.9".data))],
          ["abc123".data]⟩
        ⟨"abc123".data, "assets/x.css".data, "v=2".data⟩
      = (⟨[("abc123".data, "Initial commit".data)],
          [("abc123".data, Outcome.ok ("127.43.7.9".data))],
          ["abc123".data]⟩,
        HResponse.seeOther
          (urlString ("127.43.7.9".data) 8080 ("assets/x.css".data) ("v=2".data)),
        none) ∧
    statusOf (HResponse.seeOther
        (urlString ("127.43.7.9".data) 8080 ("assets/x.css".data) ("v=2".data)))
      = 303 ∧
    urlString ("127.43.7.9".data) 8080 ("assets/x.css".data) ("v=2".data) =
      ("http://".data) ++ ("127.43.7.9".data) ++ (':' :: natDigits 8080)
        ++ (if ("assets/x.css".data) = ([] : List Char) then []
            else '/' :: ("assets/x.css".data))
        ++ (if ("v=2".data) = ([] : List Char) then []
            else '?' :: ("v=2".data)) :=
  successRedirect_spec (fun _ _ => Outcome.ok ("127.0.0.1".data)) 8080
    ⟨[("abc123".data, "Initial commit".data)],
      [("abc123".data, Outcome.ok ("127.43.7.9".data))],
      ["abc123".data]⟩
    ("abc123".data) ("assets/x.css".data) ("v=2".data)
    ("Initial commit".data) ("127.43.7.9".data)
    (by decide) (by decide) (by decide) (by decide)

/-! ### Claim C2 -/

/-- Every address the probing loop can produce sits in the loopback /8
block: its top byte is 127. -/
theorem addrOfState_div (s : Nat) : addrOfState s / 16777216 = 127 := by
  unfold addrOfState
  have h : s % 16777216 < 16777216 := Nat.mod_lt _ (by norm_num)
  rw [Nat.add_comm, Nat.mul_comm,
    Nat.add_mul_div_left _ _ (by norm_num : 0 < (16777216 : Nat)),
    Nat.div_eq_of_lt h]

/-- A successful probe returns an address that was not yet registered,
and it lies in the loopback /8 block. -/
theorem allocLoop_spec : ∀ (fuel s : Nat) (regs : List Nat) (a : Nat),
    allocLoop fuel s regs = some a → a ∉ regs ∧ a / 16777216 = 127 := by
  intro fuel
  induction fuel with
  | zero =>
    intro s regs a h
    simp [allocLoop] at h
  | succ n ih =>
    intro s regs a h
    by_cases hm : addrOfState s ∈ regs
    · exact ih (fnvStep s 1) regs a (by simpa [allocLoop, hm] using h)
    · have ha : addrOfState s = a := by simpa [allocLoop, hm] using h
      exact ⟨ha ▸ hm, ha ▸ addrOfState_div s⟩

/-- The probing loop only consults the registration set through
membership: two registration lists registering the same addresses give
the same allocation. -/
theorem allocLoop_congr : ∀ (fuel s : Nat) (regs1 regs2 : List Nat),
    (∀ x, x ∈ regs1 ↔ x ∈ regs2) →
    allocLoop fuel s regs1 = allocLoop fuel s regs2 := by
  intro fuel
  induction fuel with
  | zero => intro s r1 r2 _; rfl
  | succ n ih =>
    intro s r1 r2 h
    by_cases hm : addrOfState s ∈ r1
    · have hm2 : addrOfState s ∈ r2 := (h _).mp hm
      simp [allocLoop, hm, hm2, ih _ r1 r2 h]
    · have hm2 : addrOfState s ∉ r2 := fun hx => hm ((h _).mpr hx)
      simp [allocLoop, hm, hm2]

/-- Allocating a sequence of commits, registering each result, yields
addresses that avoid the initial registrations and are pairwise
distinct. -/
theorem allocateAll_spec : ∀ (fuel : Nat) (cs : List (List Char))
    (regs : List Nat) (l : List Nat), allocateAll fuel cs regs = some l →
    (∀ a ∈ l, a ∉ regs) ∧ l.Nodup := by
  intro fuel cs
  induction cs with
  | nil =>
    intro regs l h
    have hl : l = [] := by simpa [allocateAll] using h.symm
    subst hl
    simp
  | cons c cs ih =>
    intro regs l h
    cases hh : allocateHost fuel c regs with
    | none => simp [allocateAll, hh] at h
    | some a =>
      cases hrest : allocateAll fuel cs (a :: regs) with
      | none => simp [allocateAll, hh, hrest] at h
      | some rest =>
        have hl : l = a :: rest := by simpa [allocateAll, hh, hrest] using h.symm
        obtain ⟨hmem, hnd⟩ := ih (a :: regs) rest hrest
        have haregs : a ∉ regs :=
          (allocLoop_spec fuel (fnvHash (strBytes c)) regs a hh).1
        subst hl
        constructor
        · intro x hx
          rcases List.mem_cons.mp hx with rfl | hx2
          · exact haregs
          · intro hxr
            exact hmem x hx2 (List.mem_cons_of_mem _ hxr)
        · refine List.nodup_cons.mpr ⟨?_, hnd⟩
          intro har
          exact hmem a har (List.mem_cons_self _ _)

/-- C2: a commit's identity is derived from the FNV-32a hash of the
commit id mapped into the loopback /8 block (top byte 127); the probing
loop perturbs the hash state with the fixed byte 1 on collision until an
unregistered address appears, so a successful allocation is never an
already-registered address, a successful allocation sequence is pairwise
distinct, and allocation depends on the existing registrations only
through which addresses they contain. -/
theorem allocator_spec (fuel : Nat) (commit : List Char)
    (regs regs2 : List Nat) (cs : List (List Char)) (a : Nat) (l : List Nat)
    (h1 : allocateHost fuel commit regs = some a)
    (h2 : allocateAll fuel cs [] = some l)
    (h3 : ∀ x, x ∈ regs ↔ x ∈ regs2) :
    allocateHost fuel commit regs
      = allocLoop fuel (fnvHash (strBytes commit)) regs ∧
    a ∉ regs ∧
    a / 16777216 = 127 ∧
    allocateHost fuel commit regs = allocateHost fuel commit regs2 ∧
    l.Nodup := by
  obtain ⟨hmem, hdiv⟩ :=
    allocLoop_spec fuel (fnvHash (strBytes commit)) regs a h1
  exact ⟨rfl, hmem, hdiv,
    allocLoop_congr fuel (fnvHash (strBytes commit)) regs regs2 h3,
    (allocateAll_spec fuel cs [] l h2).2⟩

/-- C2 witness: allocating `abc123` against a one-address registration
set (in two orders) and allocating the two spec commits in sequence. -/
theorem allocator_spec_witness :
    allocateHost 8 ("abc123".data) [2131190467]
      = allocLoop 8 (fnvHash (strBytes ("abc123".data))) [2131190467] ∧
    2142411269 ∉ [2131190467] ∧
    2142411269 / 16777216 = 127 ∧
    allocateHost 8 ("abc123".data) [2131190467]
      = allocateHost 8 ("abc123".data) [2131190467] ∧
    [2142411269, 2131190467].Nodup :=
  allocator_spec 8 ("abc123".data) [2131190467] [2131190467]
    ["abc123".data, "def456".data] 2142411269 [2142411269, 2131190467]
    (by decide) (by decide) (fun x => Iff.rfl)

/-! ### Claim C1 -/

/-- Coordinator invariant: the commits that ran their build are recorded
without duplication, and a commit has a resolved record exactly when its
build has run. -/
def Inv (st : ServerState) : Prop :=
  st.invocations.Nodup ∧
    ∀ c, (lookupRec st.records c).isSome = true ↔ c ∈ st.invocations

/-- Effect of one request on the coordinator state: the invariant is
preserved, the index is untouched, resolved records persist, an
invocation appears only for the requested commit (and only when it is
known), and a known commit's response renders a stored outcome. -/
theorem serveHTTP_step (bs : Nat → List Char → Outcome) (port : Nat)
    (st : ServerState) (r : Request) (hI : Inv st) :
    Inv (serveHTTP bs port st r).1 ∧
    (serveHTTP bs port st r).1.commits = st.commits ∧
    (∀ c v, lookupRec st.records c = some v →
      lookupRec (serveHTTP bs port st r).1.records c = some v) ∧
    (∀ c, c ∈ (serveHTTP bs port st r).1.invocations ↔
      (c ∈ st.invocations ∨
        ((lookupRec st.commits r.commit).isSome = true ∧ c = r.commit))) ∧
    ((lookupRec st.commits r.commit).isSome = true →
      ∃ o, lookupRec (serveHTTP bs port st r).1.records r.commit = some o ∧
        (serveHTTP bs port st r).2 = renderOutcome port r o) := by
  cases hk : lookupRec st.commits r.commit with
  | none =>
    have hs : serveHTTP bs port st r = (st, HResponse.notFound, none) := by
      simp [serveHTTP, hk]
    rw [hs]
    exact ⟨hI, rfl, fun c v hv => hv, fun c => by simp [hk],
      fun h => absurd h (by simp [hk])⟩
  | some title =>
    cases hr : lookupRec st.records r.commit with
    | some o =>
      have hs : serveHTTP bs port st r = (st, renderOutcome port r o) := by
        simp [serveHTTP, ensure, hk, hr]
      rw [hs]
      refine ⟨hI, rfl, fun c v hv => hv, fun c => ?_, fun _ => ⟨o, hr, rfl⟩⟩
      have hrin : r.commit ∈ st.invocations := (hI.2 r.commit).mp (by simp [hr])
      constructor
      · exact Or.inl
      · rintro (hin | ⟨-, rfl⟩)
        · exact hin
        · exact hrin
    | none =>
      have hni : r.commit ∉ st.invocations := by
        rw [← hI.2 r.commit]
        simp [hr]
      have hs : serveHTTP bs port st r =
          ({ st with
              records := st.records ++ [(r.commit, bs st.invocations.length r.commit)]
              invocations := st.invocations ++ [r.commit] },
            renderOutcome port r (bs st.invocations.length r.commit)) := by
        simp [serveHTTP, ensure, hk, hr]
      rw [hs]
      refine ⟨⟨?_, ?_⟩, rfl, ?_, fun c => ?_, ?_⟩
      · simpa [List.nodup_append] using ⟨hI.1, hni⟩
      · intro c
        rw [lookupRec_append]
        by_cases hcr : r.commit = c
        · subst hcr
          simp [hr, lookupRec]
        · have hcr2 : ¬c = r.commit := fun h => hcr h.symm
          cases hc2 : lookupRec st.records c with
          | none =>
            have hnc : c ∉ st.invocations := by
              rw [← hI.2 c]
              simp [hc2]
            simp [lookupRec, hcr, hcr2, hnc]
          | some v =>
            have hcc : c ∈ st.invocations := (hI.2 c).mp (by simp [hc2])
            simp [hcc]
      · intro c v hv
        rw [lookupRec_append, hv]
      · simp [List.mem_append, hk]
      · intro _
        refine ⟨bs st.invocations.length r.commit, ?_, rfl⟩
        rw [lookupRec_append, hr]
        simp [lookupRec]

/-- Effect of a request sequence: the invariant is preserved, the index
is untouched, records persist, the set of executed builds is exactly the
initial one plus the known requested commits, and every response renders
the outcome stored, at the end of the run, for its commit. -/
theorem runRequests_spec (bs : Nat → List Char → Outcome) (port : Nat) :
    ∀ (rs : List Request) (st : ServerState), Inv st →
    Inv (runRequests bs port st rs).1 ∧
    (runRequests bs port st rs).1.commits = st.commits ∧
    (∀ c v, lookupRec st.records c = some v →
      lookupRec (runRequests bs port st rs).1.records c = some v) ∧
    (∀ c, c ∈ (runRequests bs port st rs).1.invocations ↔
      (c ∈ st.invocations ∨
        ((lookupRec st.commits c).isSome = true ∧ ∃ r ∈ rs, r.commit = c))) ∧
    (∀ r resp lg, (r, resp, lg) ∈ (runRequests bs port st rs).2 →
      (lookupRec st.commits r.commit).isSome = true →
      ∃ o, lookupRec (runRequests bs port st rs).1.records r.commit = some o ∧
        (resp, lg) = renderOutcome port r o) := by
  intro rs
  induction rs with
  | nil =>
    intro st hI
    exact ⟨hI, rfl, fun c v hv => hv, fun c => by simp [runRequests],
      fun r resp lg hmem => by simp [runRequests] at hmem⟩
  | cons r rs ih =>
    intro st hI
    obtain ⟨S1, S2, S3, S4, S5⟩ := serveHTTP_step bs port st r hI
    obtain ⟨I1, I2, I3, I4, I5⟩ := ih (serveHTTP bs port st r).1 S1
    have hrun : runRequests bs port st (r :: rs)
        = ((runRequests bs port (serveHTTP bs port st r).1 rs).1,
          (r, (serveHTTP bs port st r).2)
            :: (runRequests bs port (serveHTTP bs port st r).1 rs).2) := rfl
    rw [hrun]
    refine ⟨I1, I2.trans S2, ?_, fun c => ?_, ?_⟩
    · exact fun c v hv => I3 c v (S3 c v hv)
    · rw [I4 c, S4 c, S2]
      constructor
      · rintro ((hin | ⟨hks, rfl⟩) | ⟨hks, r2, hr2, rfl⟩)
        · exact Or.inl hin
        · exact Or.inr ⟨hks, r, List.mem_cons_self _ _, rfl⟩
        · exact Or.inr ⟨hks, r2, List.mem_cons_of_mem _ hr2, rfl⟩
      · rintro (hin | ⟨hks, r2, hr2, rfl⟩)
        · exact Or.inl (Or.inl hin)
        · rcases List.mem_cons.mp hr2 with rfl | hr3
          · exact Or.inl (Or.inr ⟨hks, rfl⟩)
          · exact Or.inr ⟨hks, r2, hr3, rfl⟩
    · intro r2 resp lg hmem hks
      rcases List.mem_cons.mp hmem with heq | htail
      · obtain ⟨rfl, hpair⟩ : r2 = r ∧ (resp, lg) = (serveHTTP bs port st r).2 := by
          have h1 := congrArg Prod.fst heq
          have h2 := congrArg Prod.snd heq
          exact ⟨h1, h2⟩
        obtain ⟨o, ho, hro⟩ := S5 hks
        exact ⟨o, I3 _ _ ho, hpair.trans hro⟩
      · exact I5 r2 resp lg htail (by rw [S2]; exact hks)

/-- C1: starting from a fresh coordinator, over any request sequence the
build sequence of a known commit executes exactly once when the commit
is requested at least once and never otherwise, and every response for
that commit is the rendering of the single stored outcome — all callers
observe the same host or the same error, and a completed build is never
re-run. -/
theorem buildCoordinator_single_flight (bs : Nat → List Char → Outcome)
    (port : Nat) (idx : List (List Char × List Char)) (rs : List Request)
    (c title : List Char) (hc : lookupRec idx c = some title) :
    ((∃ r ∈ rs, r.commit = c) →
      ∃ l1 l2, (runRequests bs port ⟨idx, [], []⟩ rs).1.invocations
          = l1 ++ c :: l2 ∧ c ∉ l1 ∧ c ∉ l2) ∧
    ((¬∃ r ∈ rs, r.commit = c) →
      c ∉ (runRequests bs port ⟨idx, [], []⟩ rs).1.invocations) ∧
    (∀ r resp lg, (r, resp, lg) ∈ (runRequests bs port ⟨idx, [], []⟩ rs).2 →
      r.commit = c →
      ∃ o, lookupRec (runRequests bs port ⟨idx, [], []⟩ rs).1.records c = some o ∧
        (resp, lg) = renderOutcome port r o) := by
  have hI0 : Inv ⟨idx, [], []⟩ := ⟨List.nodup_nil, fun c0 => by simp [lookupRec]⟩
  obtain ⟨hInv, hcom, hmono, hmem, hresp⟩ := runRequests_spec bs port rs _ hI0
  refine ⟨?_, ?_, ?_⟩
  · intro hreq
    have hin : c ∈ (runRequests bs port ⟨idx, [], []⟩ rs).1.invocations := by
      rw [hmem c]
      exact Or.inr ⟨by simp [hc], hreq⟩
    obtain ⟨l1, l2, hsplit⟩ := List.append_of_mem hin
    refine ⟨l1, l2, hsplit, ?_, ?_⟩
    · have hnd := hsplit ▸ hInv.1
      rw [List.nodup_append] at hnd
      exact fun hcl1 => hnd.2.2 hcl1 (List.mem_cons_self _ _)
    · have hnd := hsplit ▸ hInv.1
      rw [List.nodup_append] at hnd
      exact List.nodup_cons.mp hnd.2.1 |>.1
  · intro hreq hin
    rw [hmem c] at hin
    rcases hin with hin | ⟨-, hex⟩
    · simp at hin
    · exact hreq hex
  · intro r resp lg hmemt hrc
    obtain ⟨o, ho, hro⟩ := hresp r resp lg hmemt (by simp [hrc, hc])
    exact ⟨o, by rwa [hrc] at ho, hro⟩

/-- C1 witness: two requests for `abc123` against a fresh coordinator
with a one-commit index. -/
theorem buildCoordinator_single_flight_witness :
    ((∃ r ∈ [(⟨"abc123".data, [], []⟩ : Request), ⟨"abc123".data, [], []⟩],
        r.commit = ("abc123".data)) →
      ∃ l1 l2, (runRequests (fun _ _ => Outcome.ok ("127.0.0.1".data)) 8080
          ⟨[("abc123".data, "Initial commit".data)], [], []⟩
          [⟨"abc123".data, [], []⟩, ⟨"abc123".data, [], []⟩]).1.invocations
        = l1 ++ ("abc123".data) :: l2 ∧
        ("abc123".data) ∉ l1 ∧ ("abc123".data) ∉ l2) ∧
    ((¬∃ r ∈ [(⟨"abc123".data, [], []⟩ : Request), ⟨"abc123".data, [], []⟩],
        r.commit = ("abc123".data)) →
      ("abc123".data) ∉ (runRequests (fun _ _ => Outcome.ok ("127.0.0.1".data)) 8080
          ⟨[("abc123".data, "Initial commit".data)], [], []⟩
          [⟨"abc123".data, [], []⟩, ⟨"abc123".data, [], []⟩]).1.invocations) ∧
    (∀ r resp lg,
      (r, resp, lg) ∈ (runRequests (fun _ _ => Outcome.ok ("127.0.0.1".data)) 8080
          ⟨[("abc123".data, "Initial commit".data)], [], []⟩
          [⟨"abc123".data, [], []⟩, ⟨"abc123".data, [], []⟩]).2 →
      r.commit = ("abc123".data) →
      ∃ o, lookupRec (runRequests (fun _ _ => Outcome.ok ("127.0.0.1".data)) 8080
          ⟨[("abc123".data, "Initial commit".data)], [], []⟩
          [⟨"abc123".data, [], []⟩, ⟨"abc123".data, [], []⟩]).1.records
            ("abc123".data) = some o ∧
        (resp, lg) = renderOutcome 8080 r o) :=
  buildCoordinator_single_flight (fun _ _ => Outcome.ok ("127.0.0.1".data)) 8080
    [("abc123".data, "Initial commit".data)]
    [⟨"abc123".data, [], []⟩, ⟨"abc123".data, [], []⟩]
    ("abc123".data) ("Initial commit".data) (by decide)

/-! ### Claim C3 -/

/-- Mutex runs compose over trace concatenation. -/
theorem mutexRun_append (p q : List BuildEv) (o : Option Nat) :
    mutexRun o (p ++ q) = (mutexRun o p).bind fun o1 => mutexRun o1 q := by
  induction p generalizing o with
  | nil => simp [mutexRun]
  | cons e p ih =>
    cases e with
    | mk t a =>
      cases a <;> rcases o with _ | w <;>
        simp [mutexRun, ih] <;> split_ifs <;> simp [ih]

/-- While the owning goroutine performs no unlock, it keeps the mutex. -/
theorem mutexRun_stay (t : Nat) : ∀ (q : List BuildEv) (o : Option Nat),
    (∀ e ∈ q, ¬(e.tid = t ∧ e.act = BuildAct.unlock)) →
    mutexRun (some t) q = some o → o = some t := by
  intro q
  induction q with
  | nil =>
    intro o _ hm
    exact (Option.some.inj hm).symm
  | cons e q ih =>
    intro o hq hm
    cases e with
    | mk u a =>
      cases a with
      | lock => simp [mutexRun] at hm
      | checkout =>
        exact ih o (fun e2 he => hq e2 (List.mem_cons_of_mem _ he))
          (by simpa [mutexRun] using hm)
      | gen =>
        exact ih o (fun e2 he => hq e2 (List.mem_cons_of_mem _ he))
          (by simpa [mutexRun] using hm)
      | unlock =>
        by_cases htu : t = u
        · exact absurd ⟨htu.symm, rfl⟩ (hq ⟨u, BuildAct.unlock⟩ (List.mem_cons_self _ _))
        · simp [mutexRun, htu] at hm

/-- After a goroutine's lock, as long as that goroutine has not
unlocked, the mutex-consistent owner is that goroutine. -/
theorem mutexRun_owner_after_lock (p1 p2 : List BuildEv) (t : Nat) (o : Option Nat)
    (hm : mutexRun none (p1 ++ ⟨t, BuildAct.lock⟩ :: p2) = some o)
    (h2 : ∀ e ∈ p2, ¬(e.tid = t ∧ e.act = BuildAct.unlock)) :
    o = some t := by
  rw [mutexRun_append] at hm
  cases ho1 : mutexRun none p1 with
  | none =>
    rw [ho1] at hm
    simp at hm
  | some o1 =>
    rw [ho1] at hm
    simp only [Option.some_bind] at hm
    cases o1 with
    | none => exact mutexRun_stay t p2 o h2 (by simpa [mutexRun] using hm)
    | some w => simp [mutexRun] at hm

/-- Thread projection distributes over concatenation. -/
theorem threadActs_append (t : Nat) (p q : List BuildEv) :
    threadActs t (p ++ q) = threadActs t p ++ threadActs t q := by
  simp [threadActs]

/-- Projecting a thread's own event keeps its action. -/
theorem threadActs_cons_self (t : Nat) (a : BuildAct) (q : List BuildEv) :
    threadActs t (⟨t, a⟩ :: q) = a :: threadActs t q := by
  simp [threadActs]

set_option maxRecDepth 4000 in
/-- In any action list allowed by `buildSite`'s program order, a
checkout or generator step is preceded by the lock and not yet by the
unlock. -/
theorem progOk_mid (l1 : List BuildAct) (a : BuildAct) (l2 : List BuildAct)
    (h : progOk (l1 ++ a :: l2) = true) (ha : isBuildStep a = true) :
    BuildAct.lock ∈ l1 ∧ BuildAct.unlock ∉ l1 := by
  have hm : l1 ++ a :: l2 ∈ progSeqs := of_decide_eq_true h
  simp only [progSeqs, List.mem_cons, List.not_mem_nil, or_false] at hm
  rcases l1 with _ | ⟨b1, _ | ⟨b2, _ | ⟨b3, _ | ⟨b4, l4⟩⟩⟩⟩ <;>
    rcases hm with hm | hm | hm | hm | hm | hm <;>
      simp_all [isBuildStep]

/-- In a valid trace, whenever a goroutine performs a build step the
mutex-consistent owner right before that step is that goroutine. -/
theorem valid_buildstep_owner (tr : List BuildEv) (h : validTrace tr = true)
    (i t : Nat) (a : BuildAct)
    (hi : tr.get? i = some ⟨t, a⟩) (ha : isBuildStep a = true) :
    mutexRun none (tr.take i) = some (some t) := by
  have hvm : (mutexRun none tr).isSome = true :=
    (Bool.and_eq_true _ _ |>.mp h).1
  have hvp : ∀ u ∈ tr.map BuildEv.tid, progOk (threadActs u tr) = true := by
    have := (Bool.and_eq_true _ _ |>.mp h).2
    exact fun u hu => List.all_eq_true.mp this u hu
  have hmemE : (⟨t, a⟩ : BuildEv) ∈ tr := List.get?_mem hi
  have hprog : progOk (threadActs t tr) = true :=
    hvp t (List.mem_map_of_mem BuildEv.tid hmemE)
  have hil : i < tr.length := by
    obtain ⟨hlt, -⟩ := List.get?_eq_some.mp hi
    exact hlt
  have hgi : tr.get ⟨i, hil⟩ = ⟨t, a⟩ := by
    obtain ⟨hlt, hg⟩ := List.get?_eq_some.mp hi
    exact hg
  have htr : tr = tr.take i ++ ⟨t, a⟩ :: tr.drop (i + 1) := by
    conv_lhs => rw [← List.take_append_drop i tr]
    rw [List.drop_eq_get_cons hil, hgi]
  have hta : threadActs t tr
      = threadActs t (tr.take i) ++ a :: threadActs t (tr.drop (i + 1)) := by
    conv_lhs => rw [htr]
    rw [threadActs_append, threadActs_cons_self]
  rw [hta] at hprog
  obtain ⟨hlock, hunlock⟩ := progOk_mid _ a _ hprog ha
  obtain ⟨e, he, heact⟩ := List.mem_map.mp hlock
  have hetid : e.tid = t := by
    have := List.mem_filter.mp he
    simpa using this.2
  have heE : e = ⟨t, BuildAct.lock⟩ := by
    cases e with
    | mk et ea =>
      change et = t at hetid
      change ea = BuildAct.lock at heact
      rw [hetid, heact]
  have heP : (⟨t, BuildAct.lock⟩ : BuildEv) ∈ tr.take i := by
    rw [← heE]
    exact (List.mem_filter.mp he).1
  obtain ⟨p1, p2, hsplit⟩ := List.append_of_mem heP
  have hno : ∀ e2 ∈ tr.take i, ¬(e2.tid = t ∧ e2.act = BuildAct.unlock) := by
    intro e2 he2 ⟨ht2, ha2⟩
    apply hunlock
    rw [← ha2]
    exact List.mem_map_of_mem BuildEv.act
      (List.mem_filter.mpr ⟨he2, by simp [ht2]⟩)
  have hop : ∃ op, mutexRun none (tr.take i) = some op := by
    obtain ⟨oa, hoa⟩ := Option.isSome_iff_exists.mp hvm
    have := hoa
    conv_lhs at this => rw [← List.take_append_drop i tr]
    rw [mutexRun_append] at this
    cases hpre : mutexRun none (tr.take i) with
    | none =>
      rw [hpre] at this
      simp at this
    | some op => exact ⟨op, rfl⟩
  obtain ⟨op, hopre⟩ := hop
  have : op = some t := by
    apply mutexRun_owner_after_lock p1 p2 t op
    · rw [← hsplit]
      exact hopre
    · intro e2 he2
      apply hno
      rw [hsplit]
      exact List.mem_append_right _ (List.mem_cons_of_mem _ he2)
  rw [hopre, this]

/-- C3: in every valid interleaving of `buildSite` executions, two build
steps (checkout or generate) of distinct goroutines are always separated
by the first goroutine's release of the repository lock: the entire
checkout-plus-build sequence sits inside one critical section, so at
most one commit builds at a time. -/
theorem repoLock_serializes_builds (tr : List BuildEv) (hv : validTrace tr = true)
    (i j t u : Nat) (ai aj : BuildAct) (hij : i < j)
    (hi : tr.get? i = some ⟨t, ai⟩) (hj : tr.get? j = some ⟨u, aj⟩)
    (hai : isBuildStep ai = true) (haj : isBuildStep aj = true) (htu : t ≠ u) :
    ∃ k, i < k ∧ k < j ∧ tr.get? k = some ⟨t, BuildAct.unlock⟩ := by
  have hoi := valid_buildstep_owner tr hv i t ai hi hai
  have hoj := valid_buildstep_owner tr hv j u aj hj haj
  have hjl : j < tr.length := (List.get?_eq_some.mp hj).1
  have hi1j : i + 1 ≤ j := hij
  have hi2 : tr[i]? = some ⟨t, ai⟩ := by
    rw [← List.get?_eq_getElem?]
    exact hi
  have hoi1 : mutexRun none (tr.take (i + 1)) = some (some t) := by
    rw [List.take_succ, hi2, mutexRun_append, hoi]
    cases ai with
    | lock => exact absurd hai (by simp [isBuildStep])
    | unlock => exact absurd hai (by simp [isBuildStep])
    | checkout => simp [mutexRun]
    | gen => simp [mutexRun]
  have hdec : tr.take j = tr.take (i + 1) ++ (tr.take j).drop (i + 1) := by
    conv_lhs => rw [← List.take_append_drop (i + 1) (tr.take j)]
    rw [List.take_take, Nat.min_eq_left hi1j]
  have hmidlen : ((tr.take j).drop (i + 1)).length = j - (i + 1) := by
    simp [List.length_drop, List.length_take]
    omega
  have hmj : mutexRun (some t) ((tr.take j).drop (i + 1)) = some (some u) := by
    have h2 := hoj
    rw [hdec, mutexRun_append, hoi1] at h2
    simpa using h2
  by_cases hex : ∃ e ∈ (tr.take j).drop (i + 1),
      e.tid = t ∧ e.act = BuildAct.unlock
  · obtain ⟨e, hemem, hetid, heact⟩ := hex
    have heE : e = ⟨t, BuildAct.unlock⟩ := by
      cases e with
      | mk et ea =>
        change et = t at hetid
        change ea = BuildAct.unlock at heact
        rw [hetid, heact]
    subst heE
    obtain ⟨m1, m2, hmsplit⟩ := List.append_of_mem hemem
    have hlt : (tr.take (i + 1)).length = i + 1 := by
      rw [List.length_take]
      omega
    have hlm : m1.length < ((tr.take j).drop (i + 1)).length := by
      rw [hmsplit, List.length_append, List.length_cons]
      omega
    refine ⟨(tr.take (i + 1) ++ m1).length, ?_, ?_, ?_⟩
    · rw [List.length_append, hlt]
      omega
    · rw [List.length_append, hlt]
      omega
    · have htr2 : tr = (tr.take (i + 1) ++ m1)
          ++ (⟨t, BuildAct.unlock⟩ :: (m2 ++ tr.drop j)) := by
        conv_lhs => rw [← List.take_append_drop j tr, hdec, hmsplit]
        simp [List.append_assoc]
      have hk : ((tr.take (i + 1) ++ m1)
            ++ (⟨t, BuildAct.unlock⟩ :: (m2 ++ tr.drop j))).get?
            ((tr.take (i + 1) ++ m1).length) = some ⟨t, BuildAct.unlock⟩ := by
        rw [List.get?_append_right (Nat.le_refl _)]
        simp
      nth_rewrite 1 [htr2]
      exact hk
  · push_neg at hex
    have hcon := mutexRun_stay t ((tr.take j).drop (i + 1)) (some u)
      (fun e he hee => hex e he hee.1 hee.2) hmj
    exact absurd (Option.some.inj hcon).symm htu

/-- C3 witness: a serialized two-goroutine trace in which goroutine 0
builds and unlocks before goroutine 1 checks out; the lock release of
goroutine 0 separates the two build steps. -/
theorem repoLock_serializes_builds_witness :
    ∃ k, 1 < k ∧ k < 5 ∧
      ([⟨0, BuildAct.lock⟩, ⟨0, BuildAct.checkout⟩, ⟨0, BuildAct.gen⟩,
        ⟨0, BuildAct.unlock⟩, ⟨1, BuildAct.lock⟩, ⟨1, BuildAct.checkout⟩,
        ⟨1, BuildAct.unlock⟩] : List BuildEv).get? k
        = some ⟨0, BuildAct.unlock⟩ :=
  repoLock_serializes_builds
    [⟨0, BuildAct.lock⟩, ⟨0, BuildAct.checkout⟩, ⟨0, BuildAct.gen⟩,
      ⟨0, BuildAct.unlock⟩, ⟨1, BuildAct.lock⟩, ⟨1, BuildAct.checkout⟩,
      ⟨1, BuildAct.unlock⟩]
    (by decide) 1 5 0 1 BuildAct.checkout BuildAct.checkout
    (by decide) (by decide) (by decide) (by decide) (by decide) (by decide)

end JekyllHistory
